import Mathlib

/-
Verification of the branch classification and post-rewrite reconciliation
engine of `removeSecretStringsFromRepos/secrets-removal.js`.

The script shells out to git through
    run(cmd, cwd) = try execSync(cmd, ...) -> success/output
                    catch -> success:false
`execSync` hands the command string to /bin/sh.  The embedding therefore
models three layers of the source:

  * the JavaScript string manipulation (split, replace, startsWith, ...),
    modelled by executable functions on `List Char` with the exact JS
    semantics used by the script;
  * the shell layer: a command string whose single or double quotes are
    left unterminated is rejected by /bin/sh ("unexpected EOF"), execSync
    throws, and `run` reports failure.  `shWellQuoted` is the quote
    scanner deciding that (none of the commands built by the script
    contains a backslash, so no escape handling is needed);
  * the git layer: commands that are well-formed are interpreted against
    oracles (fields of a world structure) describing the repository.

All functions are computable so that every claim can be evaluated on
concrete repositories.
-/

/-- Result of `run(cmd, cwd)` in the source: `success` plus trimmed stdout. -/
structure RunResult where
  success : Bool
  output : String
deriving Repr, DecidableEq

/-- Scanner state for `/bin/sh` quote tracking: outside any quote, inside
single quotes, or inside double quotes. -/
inductive ShQuoteState where
  | outside
  | insideSingle
  | insideDouble
deriving Repr, DecidableEq

/-- Quote scanner for /bin/sh: walks the command string and tracks the
quoting state.  Returns the state after the whole string. -/
def shQuoteScan : List Char → ShQuoteState → ShQuoteState
  | [], st => st
  | c :: cs, .outside =>
    if c = '\x27' then shQuoteScan cs .insideSingle
    else if c = '"' then shQuoteScan cs .insideDouble
    else shQuoteScan cs .outside
  | c :: cs, .insideSingle =>
    if c = '\x27' then shQuoteScan cs .outside else shQuoteScan cs .insideSingle
  | c :: cs, .insideDouble =>
    if c = '"' then shQuoteScan cs .outside else shQuoteScan cs .insideDouble

/-- Whether /bin/sh accepts the quoting of a command string: every opened
single or double quote is closed again.  A command for which this is false
makes /bin/sh report "unexpected EOF", `execSync` throws, and `run`
returns `success:false`. -/
def shWellQuoted (s : String) : Bool :=
  shQuoteScan s.data .outside == .outside

/-- Model of the JavaScript `String.prototype.split` with a one-character
separator, on character lists.  `split` keeps empty chunks. -/
def splitOnChar (sep : Char) : List Char → List (List Char)
  | [] => [[]]
  | c :: cs =>
    if c = sep then [] :: splitOnChar sep cs
    else
      match splitOnChar sep cs with
      | [] => [[c]]
      | h :: t => (c :: h) :: t

/-- JavaScript `s.split(sep)` for a one-character separator string. -/
def jsSplit (s : String) (sep : Char) : List String :=
  (splitOnChar sep s.data).map List.asString

/-- Model of JavaScript `s.replace(pat, "")`: remove the first occurrence
of `pat` (the script only ever replaces with the empty string). -/
def removeFirstOcc (pat : List Char) : List Char → List Char
  | [] => []
  | c :: cs =>
    if pat.isPrefixOf (c :: cs) then (c :: cs).drop pat.length
    else c :: removeFirstOcc pat cs

/-- JavaScript `branchName.replace('origin/', '')` (source line 194). -/
def jsRemoveFirst (s pat : String) : String :=
  (removeFirstOcc pat.data s.data).asString

/-- JavaScript `s.startsWith(p)`. -/
def jsStartsWith (s p : String) : Bool := p.data.isPrefixOf s.data

/-- JavaScript `s.endsWith(p)`. -/
def jsEndsWith (s p : String) : Bool := p.data.reverse.isPrefixOf s.data.reverse

/-- Source line 8: branches that are never reconstructed. -/
def MAIN_BRANCHES : List String := ["master", "main", "origin/master", "origin/main"]

/-
Branch classifier, source `getBranchesToReconstruct` (lines 26-90).

Git queries are modelled by a world of oracles.  `git branch -all
--format="%(refname:short)"` parses as `-a -l -l`, i.e. it lists all
branches; its raw stdout is `branchOutput` (`none` = command failed).
`git log -1 --format="%H|%an|%ae|%s|%ci" <branch>` prints the tip
commit's fields joined by '|'; the world stores the structured commit
(`tip`) and the embedding rebuilds the printed line with `gitLogLine`, so
that the script's subsequent `split('|')` is applied to exactly what git
prints.  `git merge-base --is-ancestor b m` exits 0 iff b's tip is an
ancestor of m, and `run` maps the exit status to `success`, so
`mergeCheck.success = isAncestor b m`.  `git rev-list --count m..b`
prints the number of commits reachable from b but not m (`none` = the
command failed, e.g. an unresolvable ref).  `new Date(str)` is the
oracle `parseDate` (`none` = Invalid Date, whose numeric value is NaN);
`Date.now()` is `now`, in milliseconds.
-/

/-- Commit as git knows it: the fields printed by
`--format="%H|%an|%ae|%s|%ci"` plus `commitDateMs`, the point in time (ms
since epoch) that `commitDateStr` denotes.  A world is faithful to git
when `parseDate commitDateStr = some commitDateMs`; theorems that need
this coherence take it as a hypothesis. -/
structure Commit where
  sha : String
  authorName : String
  email : String
  subject : String
  commitDateStr : String
  commitDateMs : Int
deriving Repr, DecidableEq

/-- Stdout of `git log -1 --format="%H|%an|%ae|%s|%ci" <branch>`. -/
def gitLogLine (c : Commit) : String :=
  c.sha ++ "|" ++ c.authorName ++ "|" ++ c.email ++ "|" ++ c.subject ++ "|" ++ c.commitDateStr

/-- Read-only repository oracles used by the classifier. -/
structure CWorld where
  branchOutput : Option String
  tip : String → Option Commit
  isAncestor : String → String → Bool
  revListCount : String → String → Option Nat
  parseDate : String → Option Int
  now : Int

/-- Per-branch record stored in the metadata file (source lines 78-85).
`daysSinceLastCommit` is `none` when the parsed date was NaN (JavaScript
`Math.floor(NaN)` is NaN). -/
structure BranchRecord where
  sha : String
  author : String
  email : String
  message : String
  lastCommitDate : String
  daysSinceLastCommit : Option Int
deriving Repr, DecidableEq

/-- Body of the classifier loop (source lines 35-86) for one branch name.
`none` means the branch is skipped.  The age comparison
`(Date.now() - lastCommitDate) / 86400000 > daysThreshold` is the exact
rational comparison `now - t > daysThreshold * 86400000`; when the date
failed to parse the comparison is `NaN > threshold`, which is false, so
the branch is NOT skipped as old. -/
def classifyBranch (w : CWorld) (mainBranch : String) (daysThreshold : Int)
    (branch : String) : Option (String × BranchRecord) :=
  if MAIN_BRANCHES.contains branch then none
  else
    match w.tip branch with
    | none => none
    | some c =>
      let parts := jsSplit (gitLogLine c) '|'
      let sha := parts.getD 0 ""
      let author := parts.getD 1 ""
      let email := parts.getD 2 ""
      let message := parts.getD 3 ""
      let commitDate := parts.getD 4 ""
      let lastCommitDate := w.parseDate commitDate
      let skipOld : Bool :=
        match lastCommitDate with
        | some t => decide (daysThreshold * 86400000 < w.now - t)
        | none => false
      if skipOld then none
      else if w.isAncestor branch mainBranch then none
      else if w.revListCount mainBranch branch == some 0 then none
      else
        some (branch,
          { sha, author, email, message, lastCommitDate := commitDate,
            daysSinceLastCommit :=
              lastCommitDate.map (fun t => Int.fdiv (w.now - t) 86400000) })

/-- Source `getBranchesToReconstruct` (lines 26-90): list branches, drop
empty lines and the symbolic HEAD, classify each.  Insertion order of the
JavaScript object is the iteration order, i.e. the branch-list order. -/
def getBranchesToReconstruct (w : CWorld) (mainBranch : String)
    (daysThreshold : Int) : List (String × BranchRecord) :=
  match w.branchOutput with
  | none => []
  | some out =>
    let branchList := (jsSplit out '\n').filter (fun b => !(b == "") && !(b == "HEAD"))
    branchList.filterMap (classifyBranch w mainBranch daysThreshold)

/-
Run-metadata store, source `saveBranchesMetadata` (lines 93-112) and
`getLatestMetadataForRepo` (lines 278-291).  The metadata directory is
modelled as an association list  filename -> record  in creation order
(`fs.readdir` enumeration).  `fs.writeFile` of a fresh name appends.
JavaScript `Array.prototype.sort()` with no comparator sorts strings by
UTF-16 code units, which on the ASCII filenames produced here coincides
with the character order of Lean's `String` ordering; any sorting
algorithm produces the same result for a total order, so it is modelled
with insertion sort.
-/

/-- Contents of one metadata record (source lines 100-107). -/
structure RunMetadata where
  mainBranch : String
  branches : List (String × BranchRecord)
  repoPath : String
  backupPath : String
  repoName : String
  timestamp : String
deriving Repr, DecidableEq

/-- Filename used by `saveBranchesMetadata` (source line 98). -/
def metadataFileNameOf (repoName timestamp : String) : String :=
  repoName ++ "_" ++ timestamp ++ ".json"

/-- Source `saveBranchesMetadata` (lines 93-112): write one new
timestamp-named record into the metadata directory. -/
def saveBranchesMetadata (store : List (String × RunMetadata))
    (branches : List (String × BranchRecord)) (repoName repoPath : String)
    (timestamp mainBranch backupPath : String) : List (String × RunMetadata) :=
  store ++ [(metadataFileNameOf repoName timestamp,
    ({ mainBranch, branches, repoPath, backupPath, repoName, timestamp } : RunMetadata))]

/-- Source `getLatestMetadataForRepo` (lines 278-291): filter the
directory listing to `<repoName>*...*.json`, sort, take the last entry
(`repoFiles[repoFiles.length - 1]`), or `null` when nothing matches. -/
def getLatestMetadataForRepo (files : List String) (repoName : String) :
    Option String :=
  ((files.filter (fun f => jsStartsWith f repoName && jsEndsWith f ".json")).insertionSort
      (· ≤ ·)).getLast?

/-- Reading the record selected by `getLatestMetadataForRepo` (done by
`reconstructSingleRepoBranches`, line 294, via `fs.readFile`). -/
def loadLatestMetadata (store : List (String × RunMetadata))
    (repoName : String) : Option RunMetadata :=
  (getLatestMetadataForRepo (store.map Prod.fst) repoName).bind
    (fun f => store.lookup f)

/-
Destructive run, source `cleanSecrets` (lines 131-145), `cleanRepo`
(lines 147-191) and the clean-mode loop of `main` (lines 388-394).  The
observable external effects of one repository's destructive run are
recorded as a trace.
-/

/-- Externally visible steps of one repository's destructive run. -/
inductive CleanEvent where
  | copiedSecretsFile
  | ranFilterRepo
  | removedSecretsFile
  | pushedTrunk (branch : String)
deriving Repr, DecidableEq

/-- Per-repository facts of the outside world that decide the run. -/
structure RepoRun where
  metadataWriteOk : Bool
  secretsFileExists : Bool
  filterRepoOk : Bool
deriving Repr, DecidableEq

/-- Source `cleanSecrets` (lines 131-145): copy the secrets file into the
working copy, run `git filter-repo --replace-text`, delete the temporary
file, then either throw (modelled as result `false`) when the rewrite
tool failed, or force-push the trunk.  The push's own result is ignored
by the source. -/
def cleanSecrets (filterRepoOk : Bool) (mainBranch : String) :
    Bool × List CleanEvent :=
  let ev := [CleanEvent.copiedSecretsFile, CleanEvent.ranFilterRepo,
    CleanEvent.removedSecretsFile]
  if !filterRepoOk then (false, ev)
  else (true, ev ++ [CleanEvent.pushedTrunk mainBranch])

/-- Source `cleanRepo` (lines 147-191).  Classification and the backup
copy have no effect on the modelled trace; a rejected metadata write
(`fs.mkdir`/`fs.writeFile`, line 161) propagates to `main`'s catch and is
modelled as `none`.  In dry-run mode the function stops after saving
metadata.  A missing secrets file returns `false` with no rewrite.  The
inner try/catch turns `cleanSecrets`'s throw into result `false`. -/
def cleanRepo (r : RepoRun) (dryRun : Bool) (mainBranch : String) :
    Option (Bool × List CleanEvent) :=
  if !r.metadataWriteOk then none
  else if dryRun then some (true, [])
  else if !r.secretsFileExists then some (false, [])
  else some (cleanSecrets r.filterRepoOk mainBranch)

/-- Clean-mode loop of `main` (source lines 388-394): every repository is
processed inside try/catch, so a thrown error (`none` from `cleanRepo`)
is logged and the loop continues with the next repository. -/
def processRepos (repos : List RepoRun) (dryRun : Bool)
    (mainBranch : String) : List (Bool × List CleanEvent) :=
  repos.map (fun r =>
    match cleanRepo r dryRun mainBranch with
    | none => (false, [])
    | some res => res)

/-
Branch reconstructor, source `reconstructBranchFromBackup` (lines
193-276) and `reconstructSingleRepoBranches` (lines 293-328).

Two of the commands the function builds are not well-formed:

  * line 217: `git log -1 --format="%s%n%ae%n%at ${mergeBase.output}` -
    the double quote opened for the --format argument is never closed
    (and the merge-base sha sits INSIDE the format string);
  * line 229: `git log -all --format="%H %s %ae %at | grep -F
    "${subject} ${email} ${timestamp}" | head -1 | cut -d' ' -f1` - the
    string contains three unescaped double quotes, so the last one is
    never closed (and `-all` is not a `git log` option: the intended
    pipeline sits inside the --format argument).

The embedding rebuilds each command string exactly as the template
literal does and gates it with `shWellQuoted`; an ill-quoted command
fails (`run` catches the execSync throw).  Well-formed commands are
interpreted by the `RWorld` oracles.  Line 238 calls
`findEquivalentCommit.output.sunstring(0, 8)`; strings have no method
`sunstring`, so reaching that line throws a TypeError, which rejects the
async function - modelled as the `none` result.
-/

/-- Mutating git actions attempted on the rewritten working copy. -/
inductive ReconEvent where
  | deletedBranch (name : String)
  | checkedOut (ref : String)
  | createdBranch (name : String) (anchor : String)
  | cherryPickApplied (sha : String)
  | cherryPickAborted (sha : String)
  | pushed (name : String)
deriving Repr, DecidableEq

/-- Oracles for the backup repository and the rewritten working copy.
`mergeBase m sha` is backup `git merge-base m sha`; `logRangeOutput mb
sha` is the raw stdout of backup `git log --format="%H" mb..sha`, which
git prints newest first; `cherryPickOk applied sha` says whether
cherry-picking `sha` succeeds after the commits `applied` have been
applied on the anchor. -/
structure RWorld where
  mergeBase : String → String → Option String
  logRangeOutput : String → String → Option String
  createBranchOk : String → Bool
  cherryPickOk : List String → String → Bool
  pushOk : String → Bool

/-- Replay loop, source lines 260-265: cherry-pick each sha in order; on
conflict run `git cherry-pick --abort` and continue with the next sha.
Returns the extended event trace and the list of commits applied. -/
def replayGo (w : RWorld) (shas applied : List String)
    (ev : List ReconEvent) : List ReconEvent × List String :=
  match shas with
  | [] => (ev, applied)
  | sha :: rest =>
    if w.cherryPickOk applied sha then
      replayGo w rest (applied ++ [sha]) (ev ++ [ReconEvent.cherryPickApplied sha])
    else
      replayGo w rest applied (ev ++ [ReconEvent.cherryPickAborted sha])

/-- Continuation of `reconstructBranchFromBackup` from line 242 on:
create the branch at the current checkout (`anchor`), enumerate the
backup commits between merge base and tip (git prints them newest first,
line 257 reverses to chronological order), replay them, force-push. -/
def reconstructAfterAnchor (w : RWorld) (cleanBranchName anchor tipSha mb : String)
    (ev : List ReconEvent) : Option (Bool × List ReconEvent) :=
  if w.createBranchOk cleanBranchName then
    let ev := ev ++ [ReconEvent.createdBranch cleanBranchName anchor]
    match w.logRangeOutput mb tipSha with
    | none => some (false, ev)
    | some out =>
      let shas := ((jsSplit out '\n').filter (fun s => !(s == ""))).reverse
      let res := replayGo w shas [] ev
      if w.pushOk cleanBranchName then
        some (true, res.1 ++ [ReconEvent.pushed cleanBranchName])
      else some (false, res.1)
  else some (false, ev)

/-- Source `reconstructBranchFromBackup` (lines 193-276).  Result `none`
models a thrown TypeError (line 238); `some (b, ev)` is the returned
boolean together with the trace of attempted mutations. -/
def reconstructBranchFromBackup (w : RWorld) (branchName : String)
    (branchInfo : BranchRecord) (mainBranch : String) :
    Option (Bool × List ReconEvent) :=
  let cleanBranchName := jsRemoveFirst branchName "origin/"
  -- line 197: `git branch -D <name> 2>/dev/null`, result ignored
  let ev := [ReconEvent.deletedBranch cleanBranchName]
  -- line 206: backup `git merge-base <main> <sha>`
  match w.mergeBase mainBranch branchInfo.sha with
  | none => some (false, ev)
  | some mb =>
    -- line 217 (see the header comment): the --format quote is unterminated
    let mergeBaseCommitDetails : RunResult :=
      if shWellQuoted ("git log -1 --format=\"%s%n%ae%n%at " ++ mb) then
        -- reachable only if the sha itself closed the quote; hex shas never
        -- contain a quote, and even then the sha sits inside the --format
        -- argument, so git would describe HEAD, not the merge base
        ⟨false, ""⟩
      else
        -- /bin/sh: unexpected EOF while looking for matching quote
        ⟨false, ""⟩
    if !mergeBaseCommitDetails.success then some (false, ev)
    else
      -- lines 226-276: downstream of the failure above, hence dead code
      let parts := jsSplit mergeBaseCommitDetails.output '\n'
      let subject := parts.getD 0 ""
      let email := parts.getD 1 ""
      let timestamp := parts.getD 2 ""
      -- line 229 (see the header comment): three unescaped double quotes
      let findEquivalentCommit : RunResult :=
        if shWellQuoted ("git log -all --format=\"%H %s %ae %at | grep -F \"" ++
            subject ++ " " ++ email ++ " " ++ timestamp ++
            "\" | head -1 | cut -d\x27 \x27 -f1") then
          -- even balanced, `-all` is not a `git log` option: git exits 128
          ⟨false, ""⟩
        else
          -- /bin/sh: unexpected EOF while looking for matching quote
          ⟨false, ""⟩
      if !findEquivalentCommit.success || findEquivalentCommit.output == "" then
        -- lines 233-236: fall back to the rewritten trunk as the anchor
        reconstructAfterAnchor w cleanBranchName mainBranch branchInfo.sha mb
          (ev ++ [ReconEvent.checkedOut mainBranch])
      else
        -- line 238: `.sunstring(0, 8)` is not a method: TypeError
        none

/-- Loop of source lines 316-321: reconstruct each saved branch in order,
counting successes.  A `none` (thrown TypeError) would reject the whole
function, aborting the remaining branches. -/
def reconstructBranchesLoop (w : RWorld) (mainBranch : String) :
    List (String × BranchRecord) → Option (Nat × List (String × Bool))
  | [] => some (0, [])
  | (name, info) :: rest =>
    match reconstructBranchFromBackup w name info mainBranch with
    | none => none
    | some (ok, _ev) =>
      match reconstructBranchesLoop w mainBranch rest with
      | none => none
      | some (cnt, results) =>
        some ((if ok then 1 else 0) + cnt, (name, ok) :: results)

/-- Filter of source lines 301-302: metadata entries named like a trunk
alias are dropped before reconstruction. -/
def featureBranchesOf (branches : List (String × BranchRecord)) :
    List (String × BranchRecord) :=
  branches.filter (fun p => !(MAIN_BRANCHES.contains p.1))

/-- Source `reconstructSingleRepoBranches` (lines 293-328): drop trunk
aliases, then reconstruct every remaining branch.  The backup-remote
add/fetch (lines 312-314) and the cleanup (lines 324-325) are
result-ignored plumbing outside the modelled trace; the early return for
an empty branch list (lines 306-309) yields the same observable result
`some (0, [])` as the loop. -/
def reconstructSingleRepoBranches (w : RWorld) (meta : RunMetadata) :
    Option (Nat × List (String × Bool)) :=
  reconstructBranchesLoop w meta.mainBranch (featureBranchesOf meta.branches)

/-
Helper lemmas about the classifier.
-/

theorem classifyBranch_eq_some {w : CWorld} {m : String} {d : Int} {a : String}
    {p : String × BranchRecord} (h : classifyBranch w m d a = some p) :
    p.1 = a ∧ w.isAncestor a m = false ∧ w.revListCount m a ≠ some 0 := by
  unfold classifyBranch at h
  split at h
  · exact Option.noConfusion h
  split at h
  · exact Option.noConfusion h
  split at h
  · simp at h
  split at h
  · simp at h
  rename_i hmain c htip hanc hcount
  dsimp only at h
  split at h
  · exact Option.noConfusion h
  obtain rfl := (Option.some.inj h).symm
  refine ⟨rfl, ?_, ?_⟩
  · simpa using hanc
  · intro hx
    exact hcount (by simp [hx])

theorem mem_classifier_output {w : CWorld} {m : String} {d : Int} {b : String}
    (h : b ∈ (getBranchesToReconstruct w m d).map Prod.fst) :
    ∃ p, classifyBranch w m d b = some p := by
  unfold getBranchesToReconstruct at h
  split at h
  · simp at h
  rcases List.mem_map.mp h with ⟨p, hp, hfst⟩
  rcases List.mem_filterMap.mp hp with ⟨a, _, hcls⟩
  obtain ⟨h1, -, -⟩ := classifyBranch_eq_some hcls
  rw [hfst] at h1
  subst h1
  exact ⟨p, hcls⟩

/-- Claim C4: for every branch examined by the classifier, if the branch tip is
an ancestor of the trunk (`git merge-base --is-ancestor` succeeds) or the
count of commits reachable from the branch but not from the trunk is
zero, the branch is absent from the classifier's output mapping. -/
theorem classifier_absent_of_merged_or_no_unique (w : CWorld) (mainBranch : String)
    (daysThreshold : Int) (b : String)
    (h : w.isAncestor b mainBranch = true ∨ w.revListCount mainBranch b = some 0) :
    b ∉ (getBranchesToReconstruct w mainBranch daysThreshold).map Prod.fst := by
  intro hmem
  obtain ⟨p, hp⟩ := mem_classifier_output hmem
  obtain ⟨-, hanc, hcount⟩ := classifyBranch_eq_some hp
  rcases h with h | h
  · rw [h] at hanc
    exact Bool.noConfusion hanc
  · exact hcount h

/-- Tip commit shared by the branches of the C4 witness world. -/
def wC4commit : Commit :=
  { sha := "1111aaa", authorName := "Dev One", email := "dev@example.com",
    subject := "merge work", commitDateStr := "2025-10-01 10:00:00 +0000",
    commitDateMs := 1759312800000 }

/-- Concrete classifier world: `merged-topic` is fully merged into main,
`active-topic` has two unique commits; both tips are nine days old. -/
def wC4 : CWorld :=
  { branchOutput := some "main\nmerged-topic\nactive-topic",
    tip := fun b =>
      if b == "merged-topic" || b == "active-topic" then some wC4commit else none,
    isAncestor := fun b m => b == "merged-topic" && m == "main",
    revListCount := fun _ b => if b == "active-topic" then some 2 else some 0,
    parseDate := fun s =>
      if s == "2025-10-01 10:00:00 +0000" then some 1759312800000 else none,
    now := 1760090400000 }

/-- Witness for C4: in `wC4` the merged branch satisfies the hypothesis
and is indeed absent from the classifier output. -/
theorem classifier_absent_of_merged_or_no_unique_witness :
    wC4.isAncestor "merged-topic" "main" = true ∧
      "merged-topic" ∉ (getBranchesToReconstruct wC4 "main" 30).map Prod.fst :=
  ⟨by decide,
    classifier_absent_of_merged_or_no_unique wC4 "main" 30 "merged-topic"
      (Or.inl (by decide))⟩

theorem splitOnChar_of_not_mem {sep : Char} {a : List Char} (ha : sep ∉ a) :
    splitOnChar sep a = [a] := by
  induction a with
  | nil => rfl
  | cons c cs ih =>
    have hc : ¬ c = sep := fun h => ha (h ▸ List.mem_cons_self c cs)
    have hcs : sep ∉ cs := fun h => ha (List.mem_cons_of_mem c h)
    simp [splitOnChar, hc, ih hcs]

theorem splitOnChar_append {sep : Char} {a : List Char} (ha : sep ∉ a)
    (rest : List Char) :
    splitOnChar sep (a ++ sep :: rest) = a :: splitOnChar sep rest := by
  induction a with
  | nil => simp [splitOnChar]
  | cons c cs ih =>
    have hc : ¬ c = sep := fun h => ha (h ▸ List.mem_cons_self c cs)
    have hcs : sep ∉ cs := fun h => ha (List.mem_cons_of_mem c h)
    simp [splitOnChar, hc, ih hcs]

theorem gitLogLine_parts {c : Commit}
    (h1 : ('|' : Char) ∉ c.sha.data) (h2 : ('|' : Char) ∉ c.authorName.data)
    (h3 : ('|' : Char) ∉ c.email.data) (h4 : ('|' : Char) ∉ c.subject.data)
    (h5 : ('|' : Char) ∉ c.commitDateStr.data) :
    jsSplit (gitLogLine c) '|' =
      [c.sha, c.authorName, c.email, c.subject, c.commitDateStr] := by
  have harg : (gitLogLine c).data =
      c.sha.data ++ '|' :: (c.authorName.data ++ '|' :: (c.email.data ++
        '|' :: (c.subject.data ++ '|' :: c.commitDateStr.data))) := by
    simp [gitLogLine, String.data_append]
  unfold jsSplit
  rw [harg, splitOnChar_append h1, splitOnChar_append h2, splitOnChar_append h3,
    splitOnChar_append h4, splitOnChar_of_not_mem h5]
  rfl

/-- Tip commit of the C5 counterexample: the subject line contains a '|',
and the commit is 45 days old. -/
def wC5commit : Commit :=
  { sha := "abc1234", authorName := "Alice", email := "alice@example.com",
    subject := "fix|typo in docs", commitDateStr := "2025-08-27 10:00:00 +0000",
    commitDateMs := 1756288800000 }

/-- Classifier world for the C5 counterexample: one unmerged branch with
one unique commit, whose tip is `wC5commit`; `now` is 45 days after the
commit.  `parseDate` parses the genuine date string and rejects
everything else (in particular the token "typo" that the split
mis-places into the date field: `new Date("typo")` is an Invalid Date). -/
def wC5 : CWorld :=
  { branchOutput := some "stale-pipe",
    tip := fun b => if b == "stale-pipe" then some wC5commit else none,
    isAncestor := fun _ _ => false,
    revListCount := fun _ _ => some 1,
    parseDate := fun s =>
      if s == "2025-08-27 10:00:00 +0000" then some 1756288800000 else none,
    now := 1760176800000 }

/-- Claim C5 (counterexample): a branch whose tip commit is 45 days old (age
above the 30-day threshold, with a coherent date oracle) is nevertheless
present in the classifier output, because the '|' in the commit subject
shifts the date field of the split log line (`split('|')`, source line
41), the shifted field does not parse, and `NaN > threshold` is false, so
the age skip never fires. -/
theorem classifier_age_filter_counterexample :
    wC5.tip "stale-pipe" = some wC5commit ∧
    wC5.parseDate wC5commit.commitDateStr = some wC5commit.commitDateMs ∧
    30 * 86400000 < wC5.now - wC5commit.commitDateMs ∧
    "stale-pipe" ∈ (getBranchesToReconstruct wC5 "main" 30).map Prod.fst := by
  refine ⟨by decide, by decide, by decide, ?_⟩
  decide

/-- Claim C5 (amended): a branch whose last commit is older than the threshold
is absent from the classifier output, PROVIDED the fields of the printed
log line contain no '|' (the split separator) and the date string parses.
The age is the exact value `now - t` against `daysThreshold` days in
milliseconds, matching the source's floating-point comparison
`(Date.now() - lastCommitDate) / 86400000 > daysThreshold`. -/
theorem classifier_absent_of_stale (w : CWorld) (mainBranch : String)
    (daysThreshold : Int) (b : String) (c : Commit) (t : Int)
    (htip : w.tip b = some c)
    (h1 : ('|' : Char) ∉ c.sha.data) (h2 : ('|' : Char) ∉ c.authorName.data)
    (h3 : ('|' : Char) ∉ c.email.data) (h4 : ('|' : Char) ∉ c.subject.data)
    (h5 : ('|' : Char) ∉ c.commitDateStr.data)
    (hdate : w.parseDate c.commitDateStr = some t)
    (hold : daysThreshold * 86400000 < w.now - t) :
    b ∉ (getBranchesToReconstruct w mainBranch daysThreshold).map Prod.fst := by
  intro hmem
  obtain ⟨p, hp⟩ := mem_classifier_output hmem
  unfold classifyBranch at hp
  split at hp
  · exact Option.noConfusion hp
  split at hp
  · exact Option.noConfusion hp
  rename_i c' hc'
  rw [htip] at hc'
  obtain rfl := Option.some.inj hc'
  simp [gitLogLine_parts h1 h2 h3 h4 h5, hdate, hold] at hp

/-- Tip commit for the C5 witness: no '|' in any field, 45 days old. -/
def wC5bcommit : Commit :=
  { sha := "def5678", authorName := "Bob", email := "bob@example.com",
    subject := "old work", commitDateStr := "2025-08-27 10:00:00 +0000",
    commitDateMs := 1756288800000 }

/-- Classifier world for the C5 witness: one unmerged stale branch whose
log line is free of stray separators. -/
def wC5b : CWorld :=
  { branchOutput := some "stale-clean",
    tip := fun b => if b == "stale-clean" then some wC5bcommit else none,
    isAncestor := fun _ _ => false,
    revListCount := fun _ _ => some 1,
    parseDate := fun s =>
      if s == "2025-08-27 10:00:00 +0000" then some 1756288800000 else none,
    now := 1760176800000 }

/-- Witness for the amended C5: the clean 45-day-old branch is skipped. -/
theorem classifier_absent_of_stale_witness :
    30 * 86400000 < wC5b.now - 1756288800000 ∧
    "stale-clean" ∉ (getBranchesToReconstruct wC5b "main" 30).map Prod.fst :=
  ⟨by decide,
    classifier_absent_of_stale wC5b "main" 30 "stale-clean" wC5bcommit 1756288800000
      (by decide) (by decide) (by decide) (by decide) (by decide) (by decide)
      (by decide) (by decide)⟩

theorem reconstructBranchFromBackup_always_fails (w : RWorld) (branchName : String)
    (info : BranchRecord) (mainBranch : String) :
    reconstructBranchFromBackup w branchName info mainBranch =
      some (false, [ReconEvent.deletedBranch (jsRemoveFirst branchName "origin/")]) := by
  unfold reconstructBranchFromBackup
  split
  · rfl
  · simp

theorem reconstructBranchesLoop_eq (w : RWorld) (m : String)
    (l : List (String × BranchRecord)) :
    reconstructBranchesLoop w m l = some (0, l.map (fun p => (p.1, false))) := by
  induction l with
  | nil => rfl
  | cons p rest ih =>
    obtain ⟨n, i⟩ := p
    unfold reconstructBranchesLoop
    rw [reconstructBranchFromBackup_always_fails, ih]
    simp

theorem reconstructSingleRepoBranches_eq (w : RWorld) (meta : RunMetadata) :
    reconstructSingleRepoBranches w meta =
      some (0, (featureBranchesOf meta.branches).map (fun p => (p.1, false))) :=
  reconstructBranchesLoop_eq w meta.mainBranch (featureBranchesOf meta.branches)

/-- Reconstruction world for C1: the merge base of trunk and branch tip
exists in the backup, the rewritten history is searchable, branch
creation, cherry-picks and pushes would all succeed. -/
def wC1 : RWorld :=
  { mergeBase := fun m sha => if m == "main" && sha == "e2sha" then some "bsha" else none,
    logRangeOutput := fun mb sha =>
      if mb == "bsha" && sha == "e2sha" then some "e2sha\nd1sha" else none,
    createBranchOk := fun _ => true,
    cherryPickOk := fun _ _ => true,
    pushOk := fun _ => true }

/-- Saved record of the C1 branch (tip sha `e2sha`). -/
def infoC1 : BranchRecord :=
  { sha := "e2sha", author := "Dev", email := "dev@example.com",
    message := "feature tip", lastCommitDate := "2025-10-05 09:00:00 +0000",
    daysSinceLastCommit := some 3 }

/-- Claim C1: even in a world where the merge base exists and the divergence
commit's identity tuple would be unique in the rewritten history,
`reconstructBranchFromBackup` returns false after attempting only the
local branch deletion: the command built at source line 217 has an
unterminated quote, so the identity tuple is never even read, no anchor
is resolved and no branch is created. -/
theorem anchor_mapping_never_resolves :
    wC1.mergeBase "main" infoC1.sha = some "bsha" ∧
    reconstructBranchFromBackup wC1 "feature" infoC1 "main" =
      some (false, [ReconEvent.deletedBranch "feature"]) := by
  exact ⟨by decide, by decide⟩

/-- Reconstruction world for C8: same ideal world, for a branch whose
identity tuple would have NO match in the rewritten history. -/
def wC8 : RWorld :=
  { mergeBase := fun m sha => if m == "main" && sha == "tipsha" then some "ancsha" else none,
    logRangeOutput := fun mb sha =>
      if mb == "ancsha" && sha == "tipsha" then some "tipsha" else none,
    createBranchOk := fun _ => true,
    cherryPickOk := fun _ _ => true,
    pushOk := fun _ => true }

/-- Saved record of the C8 branch (tip sha `tipsha`). -/
def infoC8 : BranchRecord :=
  { sha := "tipsha", author := "Dev", email := "dev@example.com",
    message := "bugfix tip", lastCommitDate := "2025-10-04 09:00:00 +0000",
    daysSinceLastCommit := some 4 }

/-- Claim C8: when no identity tuple would match, reconstruction is supposed to
fall back to the rewritten trunk tip and still publish the branch; the
code instead returns false before reaching the fallback, never checks out
the trunk (no `checkedOut` event) and never pushes (no `pushed` event),
because the command at source line 217 already failed. -/
theorem fallback_anchor_never_reached :
    reconstructBranchFromBackup wC8 "bugfix" infoC8 "main" =
      some (false, [ReconEvent.deletedBranch "bugfix"]) ∧
    ReconEvent.checkedOut "main" ∉ [ReconEvent.deletedBranch "bugfix"] ∧
    ReconEvent.pushed "bugfix" ∉ [ReconEvent.deletedBranch "bugfix"] := by
  exact ⟨by decide, by decide, by decide⟩

/-- Reconstruction world for C3: the backup enumerates two unique commits
between merge base and tip, `d1sha` authored before `e2sha`; git prints
them newest first. -/
def wC3 : RWorld :=
  { mergeBase := fun m sha => if m == "main" && sha == "e2sha" then some "basesha" else none,
    logRangeOutput := fun mb sha =>
      if mb == "basesha" && sha == "e2sha" then some "e2sha\nd1sha" else none,
    createBranchOk := fun _ => true,
    cherryPickOk := fun _ _ => true,
    pushOk := fun _ => true }

/-- Saved record of the C3 branch (tip sha `e2sha`). -/
def infoC3 : BranchRecord :=
  { sha := "e2sha", author := "Dev", email := "dev@example.com",
    message := "topic tip", lastCommitDate := "2025-10-06 09:00:00 +0000",
    daysSinceLastCommit := some 2 }

/-- Claim C3: for a branch with two unique commits nothing is ever replayed -
reconstruction returns false with only the branch deletion attempted, so
the claimed oldest-first replay never happens.  The last two conjuncts
trace the (dead) enumeration and replay code on the same data: line 257
does reverse git's newest-first output to oldest-first, and the loop
would apply `d1sha` before `e2sha`. -/
theorem replay_order_never_reached :
    wC3.logRangeOutput "basesha" infoC3.sha = some "e2sha\nd1sha" ∧
    reconstructBranchFromBackup wC3 "topic" infoC3 "main" =
      some (false, [ReconEvent.deletedBranch "topic"]) ∧
    ((jsSplit "e2sha\nd1sha" '\n').filter (fun s => !(s == ""))).reverse =
      ["d1sha", "e2sha"] ∧
    (replayGo wC3 ["d1sha", "e2sha"] [] []).1 =
      [ReconEvent.cherryPickApplied "d1sha", ReconEvent.cherryPickApplied "e2sha"] := by
  exact ⟨by decide, by decide, by decide, by decide⟩

/-- Reconstruction world for C2: two unique commits, the older one
(`d4d4`, the one whose diff contained the removed secret) conflicts on
cherry-pick, the newer one applies cleanly. -/
def wC2 : RWorld :=
  { mergeBase := fun m sha => if m == "main" && sha == "e5e5" then some "b1b1" else none,
    logRangeOutput := fun mb sha =>
      if mb == "b1b1" && sha == "e5e5" then some "e5e5\nd4d4" else none,
    createBranchOk := fun _ => true,
    cherryPickOk := fun _ sha => !(sha == "d4d4"),
    pushOk := fun _ => true }

/-- Saved record of the C2 branch (tip sha `e5e5`). -/
def infoC2 : BranchRecord :=
  { sha := "e5e5", author := "Dev", email := "dev@example.com",
    message := "mixed tip", lastCommitDate := "2025-10-03 09:00:00 +0000",
    daysSinceLastCommit := some 5 }

/-- Claim C2 (counterexample): a branch with two unique commits of which one
conflicts does NOT end with the other commit applied, and no `skipped =
1` is reported: reconstruction returns a bare false having attempted only
the branch deletion - the replay loop is unreachable (source line 217
bug), and no skip count exists anywhere in the per-branch result type. -/
theorem replay_skip_recording_counterexample :
    wC2.cherryPickOk [] "d4d4" = false ∧
    wC2.cherryPickOk [] "e5e5" = true ∧
    wC2.logRangeOutput "b1b1" "e5e5" = some "e5e5\nd4d4" ∧
    reconstructBranchFromBackup wC2 "mixed" infoC2 "main" =
      some (false, [ReconEvent.deletedBranch "mixed"]) := by
  exact ⟨by decide, by decide, by decide, by decide⟩

/-- Claim C2 (amended): in the replay loop itself (source lines 260-265), a
conflicting application is aborted (`git cherry-pick --abort`) and replay
continues with the next enumerated commit, so of two commits with the
first conflicting the other is still applied; the abort is visible only
in the event trace - the loop keeps no skip count. -/
theorem replay_continues_after_conflict (w : RWorld) (d e : String)
    (hd : w.cherryPickOk [] d = false) (he : w.cherryPickOk [] e = true) :
    replayGo w [d, e] [] [] =
      ([ReconEvent.cherryPickAborted d, ReconEvent.cherryPickApplied e], [e]) := by
  simp [replayGo, hd, he]

/-- Witness for the amended C2 at the concrete conflict world. -/
theorem replay_continues_after_conflict_witness :
    wC2.cherryPickOk [] "d4d4" = false ∧
    replayGo wC2 ["d4d4", "e5e5"] [] [] =
      ([ReconEvent.cherryPickAborted "d4d4", ReconEvent.cherryPickApplied "e5e5"], ["e5e5"]) :=
  ⟨by decide, replay_continues_after_conflict wC2 "d4d4" "e5e5" (by decide) (by decide)⟩

/-- Claim C7: one repository's reconstruction run attempts every saved feature
branch - no single branch's failure aborts the loop - and the reported
success count equals the number attempted minus the number failed. -/
theorem branch_failure_isolated (w : RWorld) (meta : RunMetadata) :
    ∃ results : List (String × Bool),
      reconstructSingleRepoBranches w meta =
        some ((results.filter (fun r => r.2)).length, results) ∧
      results.map Prod.fst = (featureBranchesOf meta.branches).map Prod.fst ∧
      (results.filter (fun r => r.2)).length =
        results.length - (results.filter (fun r => !r.2)).length := by
  refine ⟨(featureBranchesOf meta.branches).map (fun p => (p.1, false)), ?_, ?_, ?_⟩
  · rw [reconstructSingleRepoBranches_eq]
    simp [List.filter_map, Function.comp_def]
  · simp
  · simp [List.filter_map, Function.comp_def]

/-- Claim C10: a metadata entry named like a trunk alias is dropped by the
reconstruction run's own filter, so it is never handed to
`reconstructBranchFromBackup` and never appears among the per-branch
results. -/
theorem trunk_aliases_never_reconstructed (w : RWorld) (meta : RunMetadata)
    (name : String) (cnt : Nat) (results : List (String × Bool))
    (hmain : name ∈ MAIN_BRANCHES)
    (hrun : reconstructSingleRepoBranches w meta = some (cnt, results)) :
    name ∉ results.map Prod.fst := by
  rw [reconstructSingleRepoBranches_eq] at hrun
  have h := Option.some.inj hrun
  rw [Prod.mk.injEq] at h
  obtain ⟨-, rfl⟩ := h
  intro hmem
  simp only [List.map_map, List.mem_map, Function.comp_def] at hmem
  obtain ⟨p, hp, rfl⟩ := hmem
  have := (List.mem_filter.mp hp).2
  simp [featureBranchesOf] at this
  exact this hmain

/-- Oracles for the C10 witness world: nothing succeeds. -/
def wC10 : RWorld :=
  { mergeBase := fun _ _ => none,
    logRangeOutput := fun _ _ => none,
    createBranchOk := fun _ => false,
    cherryPickOk := fun _ _ => false,
    pushOk := fun _ => false }

/-- Branch record shared by the C10 witness metadata entries. -/
def recC10 : BranchRecord :=
  { sha := "c0ffee1", author := "Dev", email := "dev@example.com",
    message := "tip", lastCommitDate := "2025-10-02 09:00:00 +0000",
    daysSinceLastCommit := some 6 }

/-- Saved metadata for the C10 witness: the mapping wrongly contains an
entry for `origin/main` alongside a genuine feature branch. -/
def metaC10 : RunMetadata :=
  { mainBranch := "main",
    branches := [("origin/main", recC10), ("feature", recC10)],
    repoPath := "/work/app", backupPath := "/backups/app_2025-10-07T10-00-00",
    repoName := "app", timestamp := "2025-10-07T10-00-00" }

/-- Witness for C10: the trunk-alias entry is absent from the run's
results even though it is present in the saved mapping. -/
theorem trunk_aliases_never_reconstructed_witness :
    "origin/main" ∈ MAIN_BRANCHES ∧
    reconstructSingleRepoBranches wC10 metaC10 = some (0, [("feature", false)]) ∧
    "origin/main" ∉ ([("feature", false)] : List (String × Bool)).map Prod.fst :=
  ⟨by decide, by decide,
    trunk_aliases_never_reconstructed wC10 metaC10 "origin/main" 0 [("feature", false)]
      (by decide) (by decide)⟩

/-- Claim C9: in a destructive run the trunk is force-pushed only when `git
filter-repo` reported success for that repository (`cleanSecrets` throws
before the push otherwise), and every repository of the batch produces
its own entry - a rewrite failure aborts only that repository's run. -/
theorem rewrite_gates_trunk_push (repos : List RepoRun) (dryRun : Bool)
    (m : String) (i : Nat) (hi : i < repos.length) :
    (processRepos repos dryRun m).length = repos.length ∧
    (CleanEvent.pushedTrunk m ∈ ((processRepos repos dryRun m).getD i (false, [])).2 →
      (repos.getD i ⟨true, true, true⟩).filterRepoOk = true) := by
  constructor
  · simp [processRepos]
  · intro hmem
    rw [processRepos, List.getD_eq_getElem?_getD, List.getElem?_map,
      List.getElem?_eq_getElem hi] at hmem
    rw [List.getD_eq_getElem?_getD, List.getElem?_eq_getElem hi]
    generalize repos[i] = r at hmem ⊢
    obtain ⟨mw, se, fo⟩ := r
    cases mw <;> cases se <;> cases fo <;> cases dryRun <;>
      simp_all [cleanRepo, cleanSecrets]

/-- Repository whose history rewrite fails. -/
def repoFailC9 : RepoRun := ⟨true, true, false⟩

/-- Repository whose history rewrite succeeds. -/
def repoOkC9 : RepoRun := ⟨true, true, true⟩

/-- Witness for C9: in a two-repository batch whose first rewrite fails,
the theorem applies at the second repository, and concretely the first
repository's trace stops after the rewrite attempt (no push) while the
second one is still processed and pushes its trunk. -/
theorem rewrite_gates_trunk_push_witness :
    ((processRepos [repoFailC9, repoOkC9] false "main").length =
        ([repoFailC9, repoOkC9] : List RepoRun).length ∧
      (CleanEvent.pushedTrunk "main" ∈
          ((processRepos [repoFailC9, repoOkC9] false "main").getD 1 (false, [])).2 →
        (([repoFailC9, repoOkC9] : List RepoRun).getD 1 ⟨true, true, true⟩).filterRepoOk = true)) ∧
    processRepos [repoFailC9, repoOkC9] false "main" =
      [(false, [CleanEvent.copiedSecretsFile, CleanEvent.ranFilterRepo,
          CleanEvent.removedSecretsFile]),
        (true, [CleanEvent.copiedSecretsFile, CleanEvent.ranFilterRepo,
          CleanEvent.removedSecretsFile, CleanEvent.pushedTrunk "main"])] :=
  ⟨rewrite_gates_trunk_push [repoFailC9, repoOkC9] false "main" 1 (by decide), by decide⟩

/-- Arguments of one `saveBranchesMetadata` call in a save sequence. -/
structure SaveArgs where
  branches : List (String × BranchRecord)
  repoPath : String
  timestamp : String
  mainBranch : String
  backupPath : String
deriving Repr, DecidableEq

/-- Record that one save call writes for `repo` (same construction as in
`saveBranchesMetadata`). -/
def savedRecord (repo : String) (a : SaveArgs) : RunMetadata :=
  { mainBranch := a.mainBranch, branches := a.branches, repoPath := a.repoPath,
    backupPath := a.backupPath, repoName := repo, timestamp := a.timestamp }

/-- Store contents after a sequence of save calls for `repo`, starting
from an empty metadata directory. -/
def storeAfterSaves (repo : String) (args : List SaveArgs) :
    List (String × RunMetadata) :=
  args.foldl
    (fun st a =>
      saveBranchesMetadata st a.branches repo a.repoPath a.timestamp a.mainBranch
        a.backupPath)
    []

theorem foldl_append_singleton {α β : Type} (f : α → β) :
    ∀ (args : List α) (init : List β),
      args.foldl (fun st a => st ++ [f a]) init = init ++ args.map f := by
  intro args
  induction args with
  | nil => intro init; simp
  | cons a rest ih => intro init; simp [ih]

theorem storeAfterSaves_eq (repo : String) (args : List SaveArgs) :
    storeAfterSaves repo args =
      args.map (fun a => (metadataFileNameOf repo a.timestamp, savedRecord repo a)) := by
  have h := foldl_append_singleton
    (fun a : SaveArgs => (metadataFileNameOf repo a.timestamp, savedRecord repo a)) args []
  simpa [storeAfterSaves, saveBranchesMetadata, savedRecord] using h

theorem startsWith_metadataFileName (r t : String) :
    jsStartsWith (metadataFileNameOf r t) r = true := by
  simp [jsStartsWith, metadataFileNameOf, String.data_append,
    List.isPrefixOf_iff_prefix, List.append_assoc]

theorem endsWith_metadataFileName (r t : String) :
    jsEndsWith (metadataFileNameOf r t) ".json" = true := by
  simp [jsEndsWith, metadataFileNameOf, String.data_append,
    List.isPrefixOf_iff_prefix, List.reverse_append]

theorem lexAppendRight {s t : List Char} :
    ∀ {a b : List Char}, List.Lex (· < ·) a b → a.length = b.length →
      List.Lex (· < ·) (a ++ s) (b ++ t) := by
  intro a b h
  induction h with
  | nil => intro hlen; simp at hlen
  | cons h2 ih => intro hlen; exact List.Lex.cons (ih (by simpa using hlen))
  | rel h2 => intro _; exact List.Lex.rel h2

theorem lexAppendLeft : ∀ (p : List Char) {a b : List Char},
    List.Lex (· < ·) a b → List.Lex (· < ·) (p ++ a) (p ++ b) := by
  intro p
  induction p with
  | nil => intro a b h; exact h
  | cons c cs ih => intro a b h; exact List.Lex.cons (ih h)

theorem metadataFileNameOf_lt {r t1 t2 : String} (h : t1 < t2)
    (hlen : t1.length = t2.length) :
    metadataFileNameOf r t1 < metadataFileNameOf r t2 := by
  rw [String.lt_iff_toList_lt] at h ⊢
  have e1 : (metadataFileNameOf r t1).toList =
      (r.data ++ "_".data) ++ (t1.data ++ ".json".data) := by
    simp [metadataFileNameOf, String.toList, String.data_append]
  have e2 : (metadataFileNameOf r t2).toList =
      (r.data ++ "_".data) ++ (t2.data ++ ".json".data) := by
    simp [metadataFileNameOf, String.toList, String.data_append]
  rw [e1, e2]
  have h2 : List.Lex (· < ·) t1.data t2.data := h
  have hlen2 : t1.data.length = t2.data.length := hlen
  exact lexAppendLeft _ (lexAppendRight h2 hlen2)

theorem lookup_append_last {β : Type} (key : String) (v : β) :
    ∀ (l : List (String × β)), (∀ p ∈ l, p.1 ≠ key) →
      (l ++ [(key, v)]).lookup key = some v := by
  intro l
  induction l with
  | nil => simp [List.lookup]
  | cons p rest ih =>
    intro h
    obtain ⟨k, b⟩ := p
    have hne : (key == k) = false := by
      have hk := h (k, b) (List.mem_cons_self _ _)
      simp only [ne_eq] at hk
      exact beq_eq_false_iff_ne.mpr (fun e => hk e.symm)
    simp only [List.cons_append, List.lookup, hne]
    exact ih (fun q hq => h q (List.mem_cons_of_mem _ hq))

/-- Claim C6: starting from an empty metadata directory, after a sequence of
save calls for one repository whose timestamps are strictly increasing
strings of one fixed width (the script's timestamp format is fixed-width,
so lexicographic order is chronological order), `loadLatestMetadata`
returns exactly the last saved record, selected as the lexicographically
greatest matching filename; and on an empty store it returns none. -/
theorem load_latest_metadata_returns_newest (repo : String)
    (args : List SaveArgs) (aN : SaveArgs)
    (hts : List.Pairwise (· < ·) ((args ++ [aN]).map (fun a => a.timestamp)))
    (hlen : ∀ a ∈ args ++ [aN], a.timestamp.length = aN.timestamp.length) :
    loadLatestMetadata (storeAfterSaves repo (args ++ [aN])) repo =
      some (savedRecord repo aN) ∧
    loadLatestMetadata [] repo = none := by
  refine ⟨?_, rfl⟩
  have hpair : List.Pairwise (fun a b : SaveArgs => a.timestamp < b.timestamp)
      (args ++ [aN]) := (List.pairwise_map).mp hts
  have hlexpair : List.Pairwise (fun a b : SaveArgs =>
      metadataFileNameOf repo a.timestamp < metadataFileNameOf repo b.timestamp)
      (args ++ [aN]) := by
    refine List.Pairwise.imp_of_mem ?_ hpair
    intro a b ha hb hab
    exact metadataFileNameOf_lt hab ((hlen a ha).trans (hlen b hb).symm)
  have hnames : List.Pairwise (· < ·)
      ((args ++ [aN]).map (fun a => metadataFileNameOf repo a.timestamp)) :=
    (List.pairwise_map).mpr hlexpair
  have hfiles : (storeAfterSaves repo (args ++ [aN])).map Prod.fst =
      (args ++ [aN]).map (fun a => metadataFileNameOf repo a.timestamp) := by
    rw [storeAfterSaves_eq, List.map_map]
    rfl
  have hfilter : ((args ++ [aN]).map (fun a => metadataFileNameOf repo a.timestamp)).filter
        (fun fl => jsStartsWith fl repo && jsEndsWith fl ".json") =
      (args ++ [aN]).map (fun a => metadataFileNameOf repo a.timestamp) := by
    apply List.filter_eq_self.mpr
    intro x hx
    obtain ⟨a, ha, rfl⟩ := List.mem_map.mp hx
    simp [startsWith_metadataFileName, endsWith_metadataFileName]
  have hsorted : List.Sorted (· ≤ ·)
      ((args ++ [aN]).map (fun a => metadataFileNameOf repo a.timestamp)) :=
    hnames.imp le_of_lt
  have hlast : ((args ++ [aN]).map (fun a => metadataFileNameOf repo a.timestamp)).getLast? =
      some (metadataFileNameOf repo aN.timestamp) := by
    rw [List.map_append]
    exact List.getLast?_concat _
  have hlatest : getLatestMetadataForRepo
      ((storeAfterSaves repo (args ++ [aN])).map Prod.fst) repo =
      some (metadataFileNameOf repo aN.timestamp) := by
    rw [getLatestMetadataForRepo, hfiles, hfilter, hsorted.insertionSort_eq, hlast]
  rw [loadLatestMetadata, hlatest, Option.some_bind]
  rw [storeAfterSaves_eq, List.map_append]
  apply lookup_append_last
  intro p hp
  obtain ⟨a, ha, rfl⟩ := List.mem_map.mp hp
  have hcross := (List.pairwise_append.mp hlexpair).2.2
  exact ne_of_lt (hcross a ha aN (List.mem_singleton_self _))

/-- First save of the C6 witness sequence. -/
def saveA : SaveArgs :=
  { branches := [], repoPath := "/work/app", timestamp := "2025-10-07T09-00-00",
    mainBranch := "main", backupPath := "/backups/app_2025-10-07T09-00-00" }

/-- Second (latest) save of the C6 witness sequence. -/
def saveB : SaveArgs :=
  { branches := [], repoPath := "/work/app", timestamp := "2025-10-08T11-30-00",
    mainBranch := "main", backupPath := "/backups/app_2025-10-08T11-30-00" }

/-- Witness for C6: after the two chronologically increasing saves the
load returns the second record. -/
theorem load_latest_metadata_returns_newest_witness :
    List.Pairwise (· < ·) (([saveA] ++ [saveB]).map (fun a => a.timestamp)) ∧
    loadLatestMetadata (storeAfterSaves "app" ([saveA] ++ [saveB])) "app" =
      some (savedRecord "app" saveB) := by
  have hts : List.Pairwise (· < ·) (([saveA] ++ [saveB]).map (fun a => a.timestamp)) := by
    simp [saveA, saveB]
    decide
  exact ⟨hts,
    (load_latest_metadata_returns_newest "app" [saveA] saveB hts (by decide)).1⟩
